import Mathlib

/-!
Verification of the box-geometry and projection core of the spa_3d_detection
dataset converters (tools/data_converter/spa_nus_converter.py and
tools/data_converter/spa_mvx_converter.py).

Floating-point values are modelled as elements of a linear ordered field
(instantiated at real numbers in the claim theorems); numpy arrays are
modelled as lists; functions that can raise (index errors, parse errors)
return Option.
-/

/-- A 3-component vector, modelling one row (x, y, z) of a numpy array. -/
structure V3 (α : Type) where
  x : α
  y : α
  z : α
deriving DecidableEq

instance {α : Type} [Add α] : Add (V3 α) :=
  ⟨fun u v => ⟨u.x + v.x, u.y + v.y, u.z + v.z⟩⟩

@[simp] theorem V3.add_x {α : Type} [Add α] (u v : V3 α) : (u + v).x = u.x + v.x := rfl

@[simp] theorem V3.add_y {α : Type} [Add α] (u v : V3 α) : (u + v).y = u.y + v.y := rfl

@[simp] theorem V3.add_z {α : Type} [Add α] (u v : V3 α) : (u + v).z = u.z + v.z := rfl

/-- A 3x3 matrix given by its three rows. -/
structure M3 (α : Type) where
  r0 : V3 α
  r1 : V3 α
  r2 : V3 α

/-- Matrix-vector product (np.dot of a 3x3 matrix with a 3-vector). -/
def M3.mulVec {α : Type} [Add α] [Mul α] (m : M3 α) (v : V3 α) : V3 α :=
  ⟨m.r0.x * v.x + m.r0.y * v.y + m.r0.z * v.z,
   m.r1.x * v.x + m.r1.y * v.y + m.r1.z * v.z,
   m.r2.x * v.x + m.r2.y * v.y + m.r2.z * v.z⟩

/-- The numpy array.max() over a list of values (0 as junk value on the empty
list, on which numpy raises instead). -/
def npMax {α : Type} [LinearOrderedField α] : List α → α
  | [] => 0
  | a :: l => l.foldl max a

/-- The numpy array.min() over a list of values. -/
def npMin {α : Type} [LinearOrderedField α] : List α → α
  | [] => 0
  | a :: l => l.foldl min a

section FoldLemmas

variable {α : Type} [LinearOrderedField α]

theorem foldl_max_le_iff (l : List α) (a b : α) :
    l.foldl max a ≤ b ↔ a ≤ b ∧ ∀ x ∈ l, x ≤ b := by
  induction l generalizing a with
  | nil => simp
  | cons y ys ih =>
      simp only [List.foldl_cons, ih, max_le_iff, List.mem_cons]
      constructor
      · rintro ⟨⟨h1, h2⟩, h3⟩
        exact ⟨h1, fun x hx => hx.elim (fun e => e ▸ h2) (h3 x)⟩
      · rintro ⟨h1, h2⟩
        exact ⟨⟨h1, h2 y (Or.inl rfl)⟩, fun x hx => h2 x (Or.inr hx)⟩

theorem le_foldl_min_iff (l : List α) (a b : α) :
    b ≤ l.foldl min a ↔ b ≤ a ∧ ∀ x ∈ l, b ≤ x := by
  induction l generalizing a with
  | nil => simp
  | cons y ys ih =>
      simp only [List.foldl_cons, ih, le_min_iff, List.mem_cons]
      constructor
      · rintro ⟨⟨h1, h2⟩, h3⟩
        exact ⟨h1, fun x hx => hx.elim (fun e => e ▸ h2) (h3 x)⟩
      · rintro ⟨h1, h2⟩
        exact ⟨⟨h1, h2 y (Or.inl rfl)⟩, fun x hx => h2 x (Or.inr hx)⟩

theorem foldl_max_mem (l : List α) (a : α) : l.foldl max a = a ∨ l.foldl max a ∈ l := by
  induction l generalizing a with
  | nil => exact Or.inl rfl
  | cons y ys ih =>
      rcases ih (max a y) with h | h
      · rcases max_choice a y with hc | hc
        · exact Or.inl (by rw [List.foldl_cons, h, hc])
        · exact Or.inr (by rw [List.foldl_cons, h, hc]; exact List.mem_cons_self _ _)
      · exact Or.inr (List.mem_cons_of_mem _ h)

theorem foldl_min_mem (l : List α) (a : α) : l.foldl min a = a ∨ l.foldl min a ∈ l := by
  induction l generalizing a with
  | nil => exact Or.inl rfl
  | cons y ys ih =>
      rcases ih (min a y) with h | h
      · rcases min_choice a y with hc | hc
        · exact Or.inl (by rw [List.foldl_cons, h, hc])
        · exact Or.inr (by rw [List.foldl_cons, h, hc]; exact List.mem_cons_self _ _)
      · exact Or.inr (List.mem_cons_of_mem _ h)

theorem npMax_mem {l : List α} (h : l ≠ []) : npMax l ∈ l := by
  cases l with
  | nil => exact absurd rfl h
  | cons a l =>
      show l.foldl max a ∈ a :: l
      rcases foldl_max_mem l a with h1 | h1
      · rw [h1]; exact List.mem_cons_self _ _
      · exact List.mem_cons_of_mem _ h1

theorem npMin_mem {l : List α} (h : l ≠ []) : npMin l ∈ l := by
  cases l with
  | nil => exact absurd rfl h
  | cons a l =>
      show l.foldl min a ∈ a :: l
      rcases foldl_min_mem l a with h1 | h1
      · rw [h1]; exact List.mem_cons_self _ _
      · exact List.mem_cons_of_mem _ h1

theorem le_npMax_of_mem {l : List α} {x : α} (h : x ∈ l) : x ≤ npMax l := by
  cases l with
  | nil => cases h
  | cons a l =>
      have key := (foldl_max_le_iff l a (npMax (a :: l))).mp le_rfl
      rcases List.mem_cons.mp h with h1 | h1
      · exact h1 ▸ key.1
      · exact key.2 x h1

theorem npMin_le_of_mem {l : List α} {x : α} (h : x ∈ l) : npMin l ≤ x := by
  cases l with
  | nil => cases h
  | cons a l =>
      have key := (le_foldl_min_iff l a (npMin (a :: l))).mp le_rfl
      rcases List.mem_cons.mp h with h1 | h1
      · exact h1 ▸ key.1
      · exact key.2 x h1

theorem npMax_le {l : List α} {b : α} (hne : l ≠ []) (h : ∀ x ∈ l, x ≤ b) :
    npMax l ≤ b := by
  cases l with
  | nil => exact absurd rfl hne
  | cons a l =>
      exact (foldl_max_le_iff l a b).mpr
        ⟨h a (List.mem_cons_self _ _), fun x hx => h x (List.mem_cons_of_mem _ hx)⟩

theorem le_npMin {l : List α} {b : α} (hne : l ≠ []) (h : ∀ x ∈ l, b ≤ x) :
    b ≤ npMin l := by
  cases l with
  | nil => exact absurd rfl hne
  | cons a l =>
      exact (le_foldl_min_iff l a b).mpr
        ⟨h a (List.mem_cons_self _ _), fun x hx => h x (List.mem_cons_of_mem _ hx)⟩

theorem npMax_eq {l : List α} {M : α} (hmem : M ∈ l) (hub : ∀ x ∈ l, x ≤ M) :
    npMax l = M :=
  le_antisymm (npMax_le (List.ne_nil_of_mem hmem) hub) (le_npMax_of_mem hmem)

theorem npMin_eq {l : List α} {m : α} (hmem : m ∈ l) (hlb : ∀ x ∈ l, m ≤ x) :
    npMin l = m :=
  le_antisymm (npMin_le_of_mem hmem) (le_npMin (List.ne_nil_of_mem hmem) hlb)

end FoldLemmas

section CornerBuilders

variable {α : Type} [LinearOrderedField α]

/-- The 8 local corner offsets built by box_center_to_corner_3d
(spa_nus_converter.py lines 176-182) before rotation and translation:
x_corners, y_corners and z_corners all use the same sign pattern
[+, +, -, -, +, +, -, -] applied to l/2, w/2, h/2 respectively,
vstacked into one 8x3 array. -/
def local_offsets (l w h : α) : List (V3 α) :=
  [⟨l / 2, w / 2, h / 2⟩,
   ⟨l / 2, w / 2, h / 2⟩,
   ⟨-(l / 2), -(w / 2), -(h / 2)⟩,
   ⟨-(l / 2), -(w / 2), -(h / 2)⟩,
   ⟨l / 2, w / 2, h / 2⟩,
   ⟨l / 2, w / 2, h / 2⟩,
   ⟨-(l / 2), -(w / 2), -(h / 2)⟩,
   ⟨-(l / 2), -(w / 2), -(h / 2)⟩]

/-- The 8 local corner offsets built by box_center_to_corner_3d_
(spa_nus_converter.py lines 636-639) before rotation and translation:
x_corners = [l/2, l/2, -l/2, -l/2, l/2, l/2, -l/2, -l/2],
y_corners = [w/2, -w/2, -w/2, w/2, w/2, -w/2, -w/2, w/2],
z_corners = [-h/2, -h/2, -h/2, -h/2, h/2, h/2, h/2, h/2]. -/
def local_offsets_ (l w h : α) : List (V3 α) :=
  [⟨l / 2, w / 2, -(h / 2)⟩,
   ⟨l / 2, -(w / 2), -(h / 2)⟩,
   ⟨-(l / 2), -(w / 2), -(h / 2)⟩,
   ⟨-(l / 2), w / 2, -(h / 2)⟩,
   ⟨l / 2, w / 2, h / 2⟩,
   ⟨l / 2, -(w / 2), h / 2⟩,
   ⟨-(l / 2), -(w / 2), h / 2⟩,
   ⟨-(l / 2), w / 2, h / 2⟩]

/-- Application of the rotation matrix
[[cos r, -sin r, 0], [sin r, cos r, 0], [0, 0, 1]] (built in both corner
builders) to a vector, with c = cos r and s = sin r. -/
def rotZ (c s : α) (v : V3 α) : V3 α :=
  ⟨c * v.x - s * v.y, s * v.x + c * v.y, v.z⟩

/-- Rotation of every local offset about the vertical axis followed by the
translation by the box center: the common final step (np.dot(rotation_matrix,
bounding_box).T + translation) of both corner builders. -/
def cornersOf (c s tx ty tz : α) (offs : List (V3 α)) : List (V3 α) :=
  offs.map (fun v => rotZ c s v + ⟨tx, ty, tz⟩)

/-- One box of the 7-element box_center array [x, y, z, l, w, h, rot] taken by
box_center_to_corner_3d_ (fields named after the slices the source reads:
translation = box_center[0:3], l, w, h = box_center[3], [4], [5],
rot = box_center[6]). -/
structure Box7 where
  tx : ℝ
  ty : ℝ
  tz : ℝ
  l : ℝ
  w : ℝ
  h : ℝ
  rot : ℝ

/-- box_center_to_corner_3d_ (spa_nus_converter.py lines 623-655): builds the
8 local offsets, rotates them by the yaw angle box_center[6] about the
vertical axis and translates by the center. Returns the 8 corners as rows
(np.dot(rotation_matrix, bounding_box).T + translation). -/
noncomputable def box_center_to_corner_3d_ (b : Box7) : List (V3 ℝ) :=
  cornersOf (Real.cos b.rot) (Real.sin b.rot) b.tx b.ty b.tz
    (local_offsets_ b.l b.w b.h)

/-- box_center_to_corner_3d (spa_nus_converter.py lines 168-198): the batch
corner builder. Row i pairs centers[i] (translation, columns 0:3),
dims[i] = (l, w, h) (columns 0, 1, 2) and angles[i]; the rotation applied is
angles[i] + pi/2. Uses the (duplicated-sign-pattern) local_offsets template. -/
noncomputable def box_center_to_corner_3d (centers dims : List (V3 ℝ))
    (angles : List ℝ) : List (List (V3 ℝ)) :=
  (centers.zip (dims.zip angles)).map
    (fun cda =>
      cornersOf (Real.cos (cda.2.2 + Real.pi / 2)) (Real.sin (cda.2.2 + Real.pi / 2))
        cda.1.x cda.1.y cda.1.z
        (local_offsets cda.2.1.x cda.2.1.y cda.2.1.z))

end CornerBuilders

section PointsInBox

variable {α : Type} [LinearOrderedField α]

/-- get_pts_in_3dbox (spa_nus_converter.py lines 200-215): for each corner set,
takes the per-axis min/max over the corners and counts, by a per-point loop
incrementing a counter, the points lying within all three inclusive ranges. -/
def get_pts_in_3dbox (pc : List (V3 α)) (corners : List (List (V3 α))) : List ℕ :=
  corners.map (fun corner =>
    let x_max := npMax (corner.map (fun v => v.x))
    let x_min := npMin (corner.map (fun v => v.x))
    let y_max := npMax (corner.map (fun v => v.y))
    let y_min := npMin (corner.map (fun v => v.y))
    let z_max := npMax (corner.map (fun v => v.z))
    let z_min := npMin (corner.map (fun v => v.z))
    pc.foldl (fun (count : ℕ) (point : V3 α) =>
      if x_min ≤ point.x ∧ point.x ≤ x_max ∧
         y_min ≤ point.y ∧ point.y ≤ y_max ∧
         z_min ≤ point.z ∧ point.z ≤ z_max
      then count + 1 else count) 0)

/-- get_pts_in_3dbox_ (spa_nus_converter.py lines 217-230): the vectorized
variant; per corner set it builds the three inclusive interval masks, takes
their conjunction and sums the mask. -/
def get_pts_in_3dbox_ (pc : List (V3 α)) (corners : List (List (V3 α))) : List ℕ :=
  corners.map (fun corner =>
    let x_max := npMax (corner.map (fun v => v.x))
    let x_min := npMin (corner.map (fun v => v.x))
    let y_max := npMax (corner.map (fun v => v.y))
    let y_min := npMin (corner.map (fun v => v.y))
    let z_max := npMax (corner.map (fun v => v.z))
    let z_min := npMin (corner.map (fun v => v.z))
    (pc.filter (fun point =>
      (x_min ≤ point.x ∧ point.x ≤ x_max) ∧
      (y_min ≤ point.y ∧ point.y ≤ y_max) ∧
      (z_min ≤ point.z ∧ point.z ≤ z_max))).length)

end PointsInBox

section ExtentLemmas

variable {α : Type} [LinearOrderedField α]

theorem xmax_corr (c s tx ty tz l w h : α) :
    npMax ((cornersOf c s tx ty tz (local_offsets_ l w h)).map (fun v => v.x))
      = tx + (|c * l| + |s * w|) / 2 := by
  simp only [cornersOf, local_offsets_, List.map_cons, List.map_nil, rotZ, V3.add_x]
  apply npMax_eq
  · rcases abs_cases (c * l) with ⟨hc, _⟩ | ⟨hc, _⟩ <;>
      rcases abs_cases (s * w) with ⟨hs, _⟩ | ⟨hs, _⟩ <;>
      rw [hc, hs] <;> simp only [List.mem_cons]
    · exact Or.inr (Or.inl (by ring))
    · exact Or.inl (by ring)
    · exact Or.inr (Or.inr (Or.inl (by ring)))
    · exact Or.inr (Or.inr (Or.inr (Or.inl (by ring))))
  · intro x hx
    simp only [List.mem_cons, List.not_mem_nil, or_false] at hx
    rcases hx with rfl | rfl | rfl | rfl | rfl | rfl | rfl | rfl <;>
      linarith [le_abs_self (c * l), neg_le_abs (c * l),
        le_abs_self (s * w), neg_le_abs (s * w)]

theorem xmin_corr (c s tx ty tz l w h : α) :
    npMin ((cornersOf c s tx ty tz (local_offsets_ l w h)).map (fun v => v.x))
      = tx - (|c * l| + |s * w|) / 2 := by
  simp only [cornersOf, local_offsets_, List.map_cons, List.map_nil, rotZ, V3.add_x]
  apply npMin_eq
  · rcases abs_cases (c * l) with ⟨hc, _⟩ | ⟨hc, _⟩ <;>
      rcases abs_cases (s * w) with ⟨hs, _⟩ | ⟨hs, _⟩ <;>
      rw [hc, hs] <;> simp only [List.mem_cons]
    · exact Or.inr (Or.inr (Or.inr (Or.inl (by ring))))
    · exact Or.inr (Or.inr (Or.inl (by ring)))
    · exact Or.inl (by ring)
    · exact Or.inr (Or.inl (by ring))
  · intro x hx
    simp only [List.mem_cons, List.not_mem_nil, or_false] at hx
    rcases hx with rfl | rfl | rfl | rfl | rfl | rfl | rfl | rfl <;>
      linarith [le_abs_self (c * l), neg_le_abs (c * l),
        le_abs_self (s * w), neg_le_abs (s * w)]

theorem ymax_corr (c s tx ty tz l w h : α) :
    npMax ((cornersOf c s tx ty tz (local_offsets_ l w h)).map (fun v => v.y))
      = ty + (|s * l| + |c * w|) / 2 := by
  simp only [cornersOf, local_offsets_, List.map_cons, List.map_nil, rotZ, V3.add_y]
  apply npMax_eq
  · rcases abs_cases (s * l) with ⟨hc, _⟩ | ⟨hc, _⟩ <;>
      rcases abs_cases (c * w) with ⟨hs, _⟩ | ⟨hs, _⟩ <;>
      rw [hc, hs] <;> simp only [List.mem_cons]
    · exact Or.inl (by ring)
    · exact Or.inr (Or.inl (by ring))
    · exact Or.inr (Or.inr (Or.inr (Or.inl (by ring))))
    · exact Or.inr (Or.inr (Or.inl (by ring)))
  · intro x hx
    simp only [List.mem_cons, List.not_mem_nil, or_false] at hx
    rcases hx with rfl | rfl | rfl | rfl | rfl | rfl | rfl | rfl <;>
      linarith [le_abs_self (s * l), neg_le_abs (s * l),
        le_abs_self (c * w), neg_le_abs (c * w)]

theorem ymin_corr (c s tx ty tz l w h : α) :
    npMin ((cornersOf c s tx ty tz (local_offsets_ l w h)).map (fun v => v.y))
      = ty - (|s * l| + |c * w|) / 2 := by
  simp only [cornersOf, local_offsets_, List.map_cons, List.map_nil, rotZ, V3.add_y]
  apply npMin_eq
  · rcases abs_cases (s * l) with ⟨hc, _⟩ | ⟨hc, _⟩ <;>
      rcases abs_cases (c * w) with ⟨hs, _⟩ | ⟨hs, _⟩ <;>
      rw [hc, hs] <;> simp only [List.mem_cons]
    · exact Or.inr (Or.inr (Or.inl (by ring)))
    · exact Or.inr (Or.inr (Or.inr (Or.inl (by ring))))
    · exact Or.inr (Or.inl (by ring))
    · exact Or.inl (by ring)
  · intro x hx
    simp only [List.mem_cons, List.not_mem_nil, or_false] at hx
    rcases hx with rfl | rfl | rfl | rfl | rfl | rfl | rfl | rfl <;>
      linarith [le_abs_self (s * l), neg_le_abs (s * l),
        le_abs_self (c * w), neg_le_abs (c * w)]

theorem zmax_corr (c s tx ty tz l w h : α) :
    npMax ((cornersOf c s tx ty tz (local_offsets_ l w h)).map (fun v => v.z))
      = tz + |h| / 2 := by
  simp only [cornersOf, local_offsets_, List.map_cons, List.map_nil, rotZ, V3.add_z]
  apply npMax_eq
  · rcases abs_cases h with ⟨hh, _⟩ | ⟨hh, _⟩ <;> rw [hh] <;> simp only [List.mem_cons]
    · exact Or.inr (Or.inr (Or.inr (Or.inr (Or.inl (by ring)))))
    · exact Or.inl (by ring)
  · intro x hx
    simp only [List.mem_cons, List.not_mem_nil, or_false] at hx
    rcases hx with rfl | rfl | rfl | rfl | rfl | rfl | rfl | rfl <;>
      linarith [le_abs_self h, neg_le_abs h]

theorem zmin_corr (c s tx ty tz l w h : α) :
    npMin ((cornersOf c s tx ty tz (local_offsets_ l w h)).map (fun v => v.z))
      = tz - |h| / 2 := by
  simp only [cornersOf, local_offsets_, List.map_cons, List.map_nil, rotZ, V3.add_z]
  apply npMin_eq
  · rcases abs_cases h with ⟨hh, _⟩ | ⟨hh, _⟩ <;> rw [hh] <;> simp only [List.mem_cons]
    · exact Or.inl (by ring)
    · exact Or.inr (Or.inr (Or.inr (Or.inr (Or.inl (by ring)))))
  · intro x hx
    simp only [List.mem_cons, List.not_mem_nil, or_false] at hx
    rcases hx with rfl | rfl | rfl | rfl | rfl | rfl | rfl | rfl <;>
      linarith [le_abs_self h, neg_le_abs h]

theorem xmax_bug (c s tx ty tz l w h : α) :
    npMax ((cornersOf c s tx ty tz (local_offsets l w h)).map (fun v => v.x))
      = tx + |c * l - s * w| / 2 := by
  simp only [cornersOf, local_offsets, List.map_cons, List.map_nil, rotZ, V3.add_x]
  apply npMax_eq
  · rcases abs_cases (c * l - s * w) with ⟨hc, _⟩ | ⟨hc, _⟩ <;>
      rw [hc] <;> simp only [List.mem_cons]
    · exact Or.inl (by ring)
    · exact Or.inr (Or.inr (Or.inl (by ring)))
  · intro x hx
    simp only [List.mem_cons, List.not_mem_nil, or_false] at hx
    rcases hx with rfl | rfl | rfl | rfl | rfl | rfl | rfl | rfl <;>
      linarith [le_abs_self (c * l - s * w), neg_le_abs (c * l - s * w)]

theorem xmin_bug (c s tx ty tz l w h : α) :
    npMin ((cornersOf c s tx ty tz (local_offsets l w h)).map (fun v => v.x))
      = tx - |c * l - s * w| / 2 := by
  simp only [cornersOf, local_offsets, List.map_cons, List.map_nil, rotZ, V3.add_x]
  apply npMin_eq
  · rcases abs_cases (c * l - s * w) with ⟨hc, _⟩ | ⟨hc, _⟩ <;>
      rw [hc] <;> simp only [List.mem_cons]
    · exact Or.inr (Or.inr (Or.inl (by ring)))
    · exact Or.inl (by ring)
  · intro x hx
    simp only [List.mem_cons, List.not_mem_nil, or_false] at hx
    rcases hx with rfl | rfl | rfl | rfl | rfl | rfl | rfl | rfl <;>
      linarith [le_abs_self (c * l - s * w), neg_le_abs (c * l - s * w)]

theorem ymax_bug (c s tx ty tz l w h : α) :
    npMax ((cornersOf c s tx ty tz (local_offsets l w h)).map (fun v => v.y))
      = ty + |s * l + c * w| / 2 := by
  simp only [cornersOf, local_offsets, List.map_cons, List.map_nil, rotZ, V3.add_y]
  apply npMax_eq
  · rcases abs_cases (s * l + c * w) with ⟨hc, _⟩ | ⟨hc, _⟩ <;>
      rw [hc] <;> simp only [List.mem_cons]
    · exact Or.inl (by ring)
    · exact Or.inr (Or.inr (Or.inl (by ring)))
  · intro x hx
    simp only [List.mem_cons, List.not_mem_nil, or_false] at hx
    rcases hx with rfl | rfl | rfl | rfl | rfl | rfl | rfl | rfl <;>
      linarith [le_abs_self (s * l + c * w), neg_le_abs (s * l + c * w)]

theorem ymin_bug (c s tx ty tz l w h : α) :
    npMin ((cornersOf c s tx ty tz (local_offsets l w h)).map (fun v => v.y))
      = ty - |s * l + c * w| / 2 := by
  simp only [cornersOf, local_offsets, List.map_cons, List.map_nil, rotZ, V3.add_y]
  apply npMin_eq
  · rcases abs_cases (s * l + c * w) with ⟨hc, _⟩ | ⟨hc, _⟩ <;>
      rw [hc] <;> simp only [List.mem_cons]
    · exact Or.inr (Or.inr (Or.inl (by ring)))
    · exact Or.inl (by ring)
  · intro x hx
    simp only [List.mem_cons, List.not_mem_nil, or_false] at hx
    rcases hx with rfl | rfl | rfl | rfl | rfl | rfl | rfl | rfl <;>
      linarith [le_abs_self (s * l + c * w), neg_le_abs (s * l + c * w)]

theorem zmax_bug (c s tx ty tz l w h : α) :
    npMax ((cornersOf c s tx ty tz (local_offsets l w h)).map (fun v => v.z))
      = tz + |h| / 2 := by
  simp only [cornersOf, local_offsets, List.map_cons, List.map_nil, rotZ, V3.add_z]
  apply npMax_eq
  · rcases abs_cases h with ⟨hh, _⟩ | ⟨hh, _⟩ <;> rw [hh] <;> simp only [List.mem_cons]
    · exact Or.inl (by ring)
    · exact Or.inr (Or.inr (Or.inl (by ring)))
  · intro x hx
    simp only [List.mem_cons, List.not_mem_nil, or_false] at hx
    rcases hx with rfl | rfl | rfl | rfl | rfl | rfl | rfl | rfl <;>
      linarith [le_abs_self h, neg_le_abs h]

theorem zmin_bug (c s tx ty tz l w h : α) :
    npMin ((cornersOf c s tx ty tz (local_offsets l w h)).map (fun v => v.z))
      = tz - |h| / 2 := by
  simp only [cornersOf, local_offsets, List.map_cons, List.map_nil, rotZ, V3.add_z]
  apply npMin_eq
  · rcases abs_cases h with ⟨hh, _⟩ | ⟨hh, _⟩ <;> rw [hh] <;> simp only [List.mem_cons]
    · exact Or.inr (Or.inr (Or.inl (by ring)))
    · exact Or.inl (by ring)
  · intro x hx
    simp only [List.mem_cons, List.not_mem_nil, or_false] at hx
    rcases hx with rfl | rfl | rfl | rfl | rfl | rfl | rfl | rfl <;>
      linarith [le_abs_self h, neg_le_abs h]

end ExtentLemmas

section CountingLemmas

variable {α : Type} [LinearOrderedField α]

theorem count_foldl_eq_filter_length {β : Type} (p : β → Prop) [DecidablePred p]
    (xs : List β) (n : ℕ) :
    xs.foldl (fun count x => if p x then count + 1 else count) n
      = n + (xs.filter (fun x => decide (p x))).length := by
  induction xs generalizing n with
  | nil => simp
  | cons a xs ih =>
      by_cases h : p a
      · simp [List.filter_cons, h, ih]
        omega
      · simp [List.filter_cons, h, ih]

/-- Membership in the inclusive per-axis corner envelope, stated
order-theoretically: on each axis the point is bounded below by some corner
coordinate and above by some corner coordinate. -/
def inBox3Spec (p : V3 α) (cs : List (V3 α)) : Prop :=
  ((∃ v ∈ cs, v.x ≤ p.x) ∧ (∃ v ∈ cs, p.x ≤ v.x)) ∧
  ((∃ v ∈ cs, v.y ≤ p.y) ∧ (∃ v ∈ cs, p.y ≤ v.y)) ∧
  ((∃ v ∈ cs, v.z ≤ p.z) ∧ (∃ v ∈ cs, p.z ≤ v.z))

instance (p : V3 α) (cs : List (V3 α)) : Decidable (inBox3Spec p cs) := by
  unfold inBox3Spec
  infer_instance

theorem npMin_map_le_iff {cs : List (V3 α)} (h : cs ≠ []) (f : V3 α → α) (a : α) :
    npMin (cs.map f) ≤ a ↔ ∃ v ∈ cs, f v ≤ a := by
  constructor
  · intro hle
    have hmem : npMin (cs.map f) ∈ cs.map f := npMin_mem (by simpa using h)
    rcases List.mem_map.mp hmem with ⟨v, hv, hfv⟩
    exact ⟨v, hv, hfv.symm ▸ hle⟩
  · rintro ⟨v, hv, hle⟩
    exact le_trans (npMin_le_of_mem (List.mem_map_of_mem f hv)) hle

theorem le_npMax_map_iff {cs : List (V3 α)} (h : cs ≠ []) (f : V3 α → α) (a : α) :
    a ≤ npMax (cs.map f) ↔ ∃ v ∈ cs, a ≤ f v := by
  constructor
  · intro hle
    have hmem : npMax (cs.map f) ∈ cs.map f := npMax_mem (by simpa using h)
    rcases List.mem_map.mp hmem with ⟨v, hv, hfv⟩
    exact ⟨v, hv, hfv.symm ▸ hle⟩
  · rintro ⟨v, hv, hle⟩
    exact le_trans hle (le_npMax_of_mem (List.mem_map_of_mem f hv))

end CountingLemmas

/-- Claim C1: the local corner offsets of box_center_to_corner_3d do NOT form
the eight sign combinations of (l/2, w/2, h/2), and corners 0 and 4 do not
differ in the sign of the height component.  Evaluation at the failing input
l = w = h = 2: offsets 0 and 4 are both (1, 1, 1) (equal height sign, +1,
even though h = 2 is nonzero), and the sign combination (1, -1, 1) never
occurs.  The sibling builder box_center_to_corner_3d_ (local_offsets_)
realizes the claimed template, witnessing the intent. -/
theorem claim_C1_failing_eval :
    (local_offsets (2 : ℝ) 2 2).get? 0 = some ⟨1, 1, 1⟩ ∧
    (local_offsets (2 : ℝ) 2 2).get? 4 = some ⟨1, 1, 1⟩ ∧
    V3.mk (1 : ℝ) (-1) 1 ∉ local_offsets (2 : ℝ) 2 2 ∧
    (local_offsets_ (2 : ℝ) 2 2).get? 0 = some ⟨1, 1, -1⟩ ∧
    (local_offsets_ (2 : ℝ) 2 2).get? 4 = some ⟨1, 1, 1⟩ ∧
    V3.mk (1 : ℝ) (-1) 1 ∈ local_offsets_ (2 : ℝ) 2 2 := by
  refine ⟨?_, ?_, ?_, ?_, ?_, ?_⟩ <;>
    norm_num [local_offsets, local_offsets_, V3.mk.injEq, List.get?]

/-- Claim C4: the per-point-loop implementation get_pts_in_3dbox and the
vectorized implementation get_pts_in_3dbox_ return identical per-box counts
for every point cloud and every sequence of corner sets. -/
theorem claim_C4_loop_eq_vectorized (pc : List (V3 ℝ)) (corners : List (List (V3 ℝ))) :
    get_pts_in_3dbox pc corners = get_pts_in_3dbox_ pc corners := by
  unfold get_pts_in_3dbox get_pts_in_3dbox_
  induction corners with
  | nil => rfl
  | cons cs rest ih =>
      simp only [List.map_cons, List.cons.injEq]
      refine ⟨?_, by simpa using ih⟩
      rw [count_foldl_eq_filter_length, Nat.zero_add]
      congr 1
      apply List.filter_congr
      intro p _
      rw [decide_eq_decide]
      tauto

/-- Claim C7: the per-box count of get_pts_in_3dbox_ equals the number of
points lying within the per-axis min/max envelope of the corners with
inclusive bounds on both ends (characterized order-theoretically by
inBox3Spec), counted via countP so each point contributes at most once, and
hence every per-box count is at most the number of points. -/
theorem claim_C7_count_spec (pc : List (V3 ℝ)) (corners : List (List (V3 ℝ)))
    (h : ∀ cs ∈ corners, cs ≠ []) :
    get_pts_in_3dbox_ pc corners
        = corners.map (fun cs => pc.countP (fun p => decide (inBox3Spec p cs))) ∧
      ∀ n ∈ get_pts_in_3dbox_ pc corners, n ≤ pc.length := by
  have key : ∀ cs ∈ corners,
      (pc.filter (fun point =>
        decide ((npMin (cs.map (fun v => v.x)) ≤ point.x ∧
                  point.x ≤ npMax (cs.map (fun v => v.x))) ∧
                (npMin (cs.map (fun v => v.y)) ≤ point.y ∧
                  point.y ≤ npMax (cs.map (fun v => v.y))) ∧
                (npMin (cs.map (fun v => v.z)) ≤ point.z ∧
                  point.z ≤ npMax (cs.map (fun v => v.z)))))).length
        = pc.countP (fun p => decide (inBox3Spec p cs)) := by
    intro cs hcs
    rw [List.countP_eq_length_filter]
    congr 1
    apply List.filter_congr
    intro p _
    rw [decide_eq_decide]
    unfold inBox3Spec
    rw [npMin_map_le_iff (h cs hcs), le_npMax_map_iff (h cs hcs),
      npMin_map_le_iff (h cs hcs), le_npMax_map_iff (h cs hcs),
      npMin_map_le_iff (h cs hcs), le_npMax_map_iff (h cs hcs)]
  constructor
  · unfold get_pts_in_3dbox_
    apply List.map_congr_left
    intro cs hcs
    exact key cs hcs
  · intro n hn
    unfold get_pts_in_3dbox_ at hn
    rcases List.mem_map.mp hn with ⟨cs, hcs, hbody⟩
    rw [← hbody]
    exact List.length_filter_le _ _

section Cardinal

/-- At a yaw that is an integer multiple of pi/2, either the cosine vanishes
and the sine has absolute value 1, or the sine vanishes and the cosine has
absolute value 1. -/
theorem cardinal_cos_sin (θ : ℝ) (k : ℤ) (hθ : θ = (k : ℝ) * (Real.pi / 2)) :
    (Real.cos θ = 0 ∧ |Real.sin θ| = 1) ∨ (Real.sin θ = 0 ∧ |Real.cos θ| = 1) := by
  have h2θ : (2 : ℝ) * θ = (k : ℝ) * Real.pi := by rw [hθ]; ring
  have hprod : Real.cos θ * Real.sin θ = 0 := by
    have hs := Real.sin_two_mul θ
    rw [h2θ, Real.sin_int_mul_pi] at hs
    nlinarith [hs]
  have hpyth := Real.sin_sq_add_cos_sq θ
  rcases mul_eq_zero.mp hprod with hc | hs
  · left
    refine ⟨hc, ?_⟩
    have hs2 : Real.sin θ ^ 2 = 1 := by
      rw [hc] at hpyth
      nlinarith [hpyth]
    have hfac : (Real.sin θ - 1) * (Real.sin θ + 1) = 0 := by linear_combination hs2
    rcases mul_eq_zero.mp hfac with h1 | h1
    · rw [sub_eq_zero.mp h1]; exact abs_one
    · rw [eq_neg_of_add_eq_zero_left h1]; simp
  · right
    refine ⟨hs, ?_⟩
    have hc2 : Real.cos θ ^ 2 = 1 := by
      rw [hs] at hpyth
      nlinarith [hpyth]
    have hfac : (Real.cos θ - 1) * (Real.cos θ + 1) = 0 := by linear_combination hc2
    rcases mul_eq_zero.mp hfac with h1 | h1
    · rw [sub_eq_zero.mp h1]; exact abs_one
    · rw [eq_neg_of_add_eq_zero_left h1]; simp

end Cardinal

theorem volume_corr (c s tx ty tz l w h : ℝ) (hl : 0 ≤ l) (hw : 0 ≤ w) (hh : 0 ≤ h)
    (hcard : (c = 0 ∧ |s| = 1) ∨ (s = 0 ∧ |c| = 1)) :
    (npMax ((cornersOf c s tx ty tz (local_offsets_ l w h)).map (fun v => v.x)) -
      npMin ((cornersOf c s tx ty tz (local_offsets_ l w h)).map (fun v => v.x))) *
    (npMax ((cornersOf c s tx ty tz (local_offsets_ l w h)).map (fun v => v.y)) -
      npMin ((cornersOf c s tx ty tz (local_offsets_ l w h)).map (fun v => v.y))) *
    (npMax ((cornersOf c s tx ty tz (local_offsets_ l w h)).map (fun v => v.z)) -
      npMin ((cornersOf c s tx ty tz (local_offsets_ l w h)).map (fun v => v.z)))
      = l * w * h := by
  rw [xmax_corr, xmin_corr, ymax_corr, ymin_corr, zmax_corr, zmin_corr]
  rcases hcard with ⟨hc, hs⟩ | ⟨hs, hc⟩
  · rw [hc]
    simp only [zero_mul, abs_zero, abs_mul, hs, one_mul,
      abs_of_nonneg hl, abs_of_nonneg hw, abs_of_nonneg hh]
    ring
  · rw [hs]
    simp only [zero_mul, abs_zero, abs_mul, hc, one_mul,
      abs_of_nonneg hl, abs_of_nonneg hw, abs_of_nonneg hh]
    ring

theorem volume_bug (c s tx ty tz l w h : ℝ) (hl : 0 ≤ l) (hw : 0 ≤ w) (hh : 0 ≤ h)
    (hcard : (c = 0 ∧ |s| = 1) ∨ (s = 0 ∧ |c| = 1)) :
    (npMax ((cornersOf c s tx ty tz (local_offsets l w h)).map (fun v => v.x)) -
      npMin ((cornersOf c s tx ty tz (local_offsets l w h)).map (fun v => v.x))) *
    (npMax ((cornersOf c s tx ty tz (local_offsets l w h)).map (fun v => v.y)) -
      npMin ((cornersOf c s tx ty tz (local_offsets l w h)).map (fun v => v.y))) *
    (npMax ((cornersOf c s tx ty tz (local_offsets l w h)).map (fun v => v.z)) -
      npMin ((cornersOf c s tx ty tz (local_offsets l w h)).map (fun v => v.z)))
      = l * w * h := by
  rw [xmax_bug, xmin_bug, ymax_bug, ymin_bug, zmax_bug, zmin_bug]
  rcases hcard with ⟨hc, hs⟩ | ⟨hs, hc⟩
  · have hx : c * l - s * w = -(s * w) := by rw [hc]; ring
    have hy : s * l + c * w = s * l := by rw [hc]; ring
    rw [hx, hy, abs_neg, abs_mul, abs_mul, hs,
      abs_of_nonneg hl, abs_of_nonneg hw, abs_of_nonneg hh]
    ring
  · have hx : c * l - s * w = c * l := by rw [hs]; ring
    have hy : s * l + c * w = c * w := by rw [hs]; ring
    rw [hx, hy, abs_mul, abs_mul, hc,
      abs_of_nonneg hl, abs_of_nonneg hw, abs_of_nonneg hh]
    ring

/-- Claim C6: for every center, size with nonnegative components and yaw an
integer multiple of pi/2, both corner builders return exactly 8 points and
the product over the three axes of (max minus min) of the 8 corner
coordinates equals l*w*h.  The second conjunct covers the batch builder
box_center_to_corner_3d applied to the singleton batch. -/
theorem claim_C6_eight_corners_volume (b : Box7) (k : ℤ) (hl : 0 ≤ b.l) (hw : 0 ≤ b.w)
    (hh : 0 ≤ b.h) (hyaw : b.rot = (k : ℝ) * (Real.pi / 2)) :
    ((box_center_to_corner_3d_ b).length = 8 ∧
      (npMax ((box_center_to_corner_3d_ b).map (fun v => v.x)) -
          npMin ((box_center_to_corner_3d_ b).map (fun v => v.x))) *
        (npMax ((box_center_to_corner_3d_ b).map (fun v => v.y)) -
          npMin ((box_center_to_corner_3d_ b).map (fun v => v.y))) *
        (npMax ((box_center_to_corner_3d_ b).map (fun v => v.z)) -
          npMin ((box_center_to_corner_3d_ b).map (fun v => v.z))) = b.l * b.w * b.h) ∧
    ∀ cs ∈ box_center_to_corner_3d [⟨b.tx, b.ty, b.tz⟩] [⟨b.l, b.w, b.h⟩] [b.rot],
      cs.length = 8 ∧
        (npMax (cs.map (fun v => v.x)) - npMin (cs.map (fun v => v.x))) *
          (npMax (cs.map (fun v => v.y)) - npMin (cs.map (fun v => v.y))) *
          (npMax (cs.map (fun v => v.z)) - npMin (cs.map (fun v => v.z)))
          = b.l * b.w * b.h := by
  have hcard := cardinal_cos_sin b.rot k hyaw
  have hcard2 := cardinal_cos_sin (b.rot + Real.pi / 2) (k + 1)
    (by rw [hyaw]; push_cast; ring)
  refine ⟨⟨?_, ?_⟩, ?_⟩
  · simp [box_center_to_corner_3d_, cornersOf, local_offsets_]
  · unfold box_center_to_corner_3d_
    exact volume_corr _ _ _ _ _ _ _ _ hl hw hh hcard
  · intro cs hcs
    simp only [box_center_to_corner_3d, List.zip_cons_cons, List.zip_nil_right,
      List.map_cons, List.map_nil, List.mem_cons, List.not_mem_nil, or_false] at hcs
    subst hcs
    constructor
    · simp [cornersOf, local_offsets]
    · exact volume_bug _ _ _ _ _ _ _ _ hl hw hh hcard2

theorem get_pts_single (p : V3 ℝ) (cs : List (V3 ℝ))
    (hx1 : npMin (cs.map (fun v => v.x)) ≤ p.x)
    (hx2 : p.x ≤ npMax (cs.map (fun v => v.x)))
    (hy1 : npMin (cs.map (fun v => v.y)) ≤ p.y)
    (hy2 : p.y ≤ npMax (cs.map (fun v => v.y)))
    (hz1 : npMin (cs.map (fun v => v.z)) ≤ p.z)
    (hz2 : p.z ≤ npMax (cs.map (fun v => v.z))) :
    get_pts_in_3dbox_ [p] [cs] = [1] := by
  unfold get_pts_in_3dbox_
  simp [List.filter_cons, hx1, hx2, hy1, hy2, hz1, hz2]

/-- Claim C8: a point exactly at the box center is classified as inside by the
axis-aligned membership test of get_pts_in_3dbox_ applied to the corners
produced by either corner builder, for every non-degenerate box and every
yaw. -/
theorem claim_C8_center_inside (b : Box7) (hl : 0 < b.l) (hw : 0 < b.w) (hh : 0 < b.h) :
    get_pts_in_3dbox_ [⟨b.tx, b.ty, b.tz⟩] [box_center_to_corner_3d_ b] = [1] ∧
    ∀ cs ∈ box_center_to_corner_3d [⟨b.tx, b.ty, b.tz⟩] [⟨b.l, b.w, b.h⟩] [b.rot],
      get_pts_in_3dbox_ [⟨b.tx, b.ty, b.tz⟩] [cs] = [1] := by
  constructor
  · unfold box_center_to_corner_3d_
    apply get_pts_single
    · rw [xmin_corr]
      have := abs_nonneg (Real.cos b.rot * b.l)
      have := abs_nonneg (Real.sin b.rot * b.w)
      show _ ≤ b.tx
      linarith
    · rw [xmax_corr]
      have := abs_nonneg (Real.cos b.rot * b.l)
      have := abs_nonneg (Real.sin b.rot * b.w)
      show b.tx ≤ _
      linarith
    · rw [ymin_corr]
      have := abs_nonneg (Real.sin b.rot * b.l)
      have := abs_nonneg (Real.cos b.rot * b.w)
      show _ ≤ b.ty
      linarith
    · rw [ymax_corr]
      have := abs_nonneg (Real.sin b.rot * b.l)
      have := abs_nonneg (Real.cos b.rot * b.w)
      show b.ty ≤ _
      linarith
    · rw [zmin_corr]
      have := abs_nonneg b.h
      show _ ≤ b.tz
      linarith
    · rw [zmax_corr]
      have := abs_nonneg b.h
      show b.tz ≤ _
      linarith
  · intro cs hcs
    simp only [box_center_to_corner_3d, List.zip_cons_cons, List.zip_nil_right,
      List.map_cons, List.map_nil, List.mem_cons, List.not_mem_nil, or_false] at hcs
    subst hcs
    apply get_pts_single
    · rw [xmin_bug]
      have := abs_nonneg (Real.cos (b.rot + Real.pi / 2) * b.l -
        Real.sin (b.rot + Real.pi / 2) * b.w)
      show _ ≤ b.tx
      linarith
    · rw [xmax_bug]
      have := abs_nonneg (Real.cos (b.rot + Real.pi / 2) * b.l -
        Real.sin (b.rot + Real.pi / 2) * b.w)
      show b.tx ≤ _
      linarith
    · rw [ymin_bug]
      have := abs_nonneg (Real.sin (b.rot + Real.pi / 2) * b.l +
        Real.cos (b.rot + Real.pi / 2) * b.w)
      show _ ≤ b.ty
      linarith
    · rw [ymax_bug]
      have := abs_nonneg (Real.sin (b.rot + Real.pi / 2) * b.l +
        Real.cos (b.rot + Real.pi / 2) * b.w)
      show b.ty ≤ _
      linarith
    · rw [zmin_bug]
      have := abs_nonneg b.h
      show _ ≤ b.tz
      linarith
    · rw [zmax_bug]
      have := abs_nonneg b.h
      show b.tz ≤ _
      linarith

/-- Claim C3 counterexample: the degenerate box with center (0,0,0),
size (l, w, h) = (2, 2, 0) and yaw 0 produces collapsed (zero-volume)
corners, yet get_pts_in_3dbox_ counts the point (0,0,0), which lies exactly
on the collapsed envelope, so the per-box count is 1 and not 0. -/
theorem claim_C3_counterexample :
    get_pts_in_3dbox_ [(⟨0, 0, 0⟩ : V3 ℝ)]
      [box_center_to_corner_3d_ ⟨0, 0, 0, 2, 2, 0, 0⟩] ≠ [0] := by
  have h1 : get_pts_in_3dbox_ [(⟨0, 0, 0⟩ : V3 ℝ)]
      [box_center_to_corner_3d_ ⟨0, 0, 0, 2, 2, 0, 0⟩] = [1] := by
    unfold box_center_to_corner_3d_
    apply get_pts_single
    · rw [xmin_corr]
      have := abs_nonneg (Real.cos (Box7.mk 0 0 0 2 2 0 0).rot * (2 : ℝ))
      have := abs_nonneg (Real.sin (Box7.mk 0 0 0 2 2 0 0).rot * (2 : ℝ))
      show _ ≤ (0 : ℝ)
      simp only
      linarith
    · rw [xmax_corr]
      have := abs_nonneg (Real.cos (Box7.mk 0 0 0 2 2 0 0).rot * (2 : ℝ))
      have := abs_nonneg (Real.sin (Box7.mk 0 0 0 2 2 0 0).rot * (2 : ℝ))
      show (0 : ℝ) ≤ _
      simp only
      linarith
    · rw [ymin_corr]
      have := abs_nonneg (Real.sin (Box7.mk 0 0 0 2 2 0 0).rot * (2 : ℝ))
      have := abs_nonneg (Real.cos (Box7.mk 0 0 0 2 2 0 0).rot * (2 : ℝ))
      show _ ≤ (0 : ℝ)
      simp only
      linarith
    · rw [ymax_corr]
      have := abs_nonneg (Real.sin (Box7.mk 0 0 0 2 2 0 0).rot * (2 : ℝ))
      have := abs_nonneg (Real.cos (Box7.mk 0 0 0 2 2 0 0).rot * (2 : ℝ))
      show (0 : ℝ) ≤ _
      simp only
      linarith
    · rw [zmin_corr]
      show _ ≤ (0 : ℝ)
      simp only
      norm_num
    · rw [zmax_corr]
      show (0 : ℝ) ≤ _
      simp only
      norm_num
  rw [h1]
  simp

/-- Claim C3 amended: for a degenerate box of height 0, get_pts_in_3dbox_
does not treat the box as containing no points; instead the count equals the
number of points lying within the (collapsed) inclusive envelope, i.e. within
the x/y corner bounds and with z exactly equal to the box center height. -/
theorem claim_C3_amended (b : Box7) (hh : b.h = 0) (pc : List (V3 ℝ)) :
    get_pts_in_3dbox_ pc [box_center_to_corner_3d_ b] =
      [pc.countP (fun p => decide (
        (npMin ((box_center_to_corner_3d_ b).map (fun v => v.x)) ≤ p.x ∧
          p.x ≤ npMax ((box_center_to_corner_3d_ b).map (fun v => v.x))) ∧
        (npMin ((box_center_to_corner_3d_ b).map (fun v => v.y)) ≤ p.y ∧
          p.y ≤ npMax ((box_center_to_corner_3d_ b).map (fun v => v.y))) ∧
        p.z = b.tz))] := by
  have hzmax : npMax ((box_center_to_corner_3d_ b).map (fun v => v.z)) = b.tz := by
    unfold box_center_to_corner_3d_
    rw [zmax_corr, hh]
    simp
  have hzmin : npMin ((box_center_to_corner_3d_ b).map (fun v => v.z)) = b.tz := by
    unfold box_center_to_corner_3d_
    rw [zmin_corr, hh]
    simp
  unfold get_pts_in_3dbox_
  simp only [List.map_cons, List.map_nil, List.cons.injEq, and_true]
  rw [List.countP_eq_length_filter]
  congr 1
  apply List.filter_congr
  intro p _
  rw [decide_eq_decide, hzmin, hzmax]
  constructor
  · rintro ⟨hx, hy, hz1, hz2⟩
    exact ⟨hx, hy, le_antisymm hz2 hz1⟩
  · rintro ⟨hx, hy, hz⟩
    exact ⟨hx, hy, le_of_eq hz.symm, le_of_eq hz⟩

section Projection

variable {α : Type} [LinearOrderedField α]

/-- The 3x3 identity matrix. -/
def idM3 : M3 α := ⟨⟨1, 0, 0⟩, ⟨0, 1, 0⟩, ⟨0, 0, 1⟩⟩

/-- The mono3d center projection of spa_nus_converter.py get_2d_boxes
(lines 925-933): center3d = extrinsic . loc + translation, then
center2d = intrinsic . center3d with the first two components divided by the
third; the third component (the camera-frame depth) is kept. -/
def nus_center2d (intr extr : M3 α) (t : V3 α) (loc : V3 α) : V3 α :=
  let center3d := extr.mulVec loc + t
  let q := intr.mulVec center3d
  ⟨q.x / q.z, q.y / q.z, q.z⟩

/-- The per-label mono3d record list built by spa_nus_converter.py
get_2d_boxes with mono3d=True, restricted to the center2d field each record
carries.  The source checks the projected depth
(if repro_rec[center2d][2] <= 0: pass) but the branch body is pass, so every
record is appended regardless of the sign of the depth. -/
def nus_mono3d_records (intr extr : M3 α) (t : V3 α) (locs : List (V3 α)) :
    List (V3 α) :=
  locs.map (fun loc => nus_center2d intr extr t loc)

/-- points_cam2img with with_depth=True on a single point (the external
helper called by spa_mvx_converter.py get_2d_boxes): homogeneous projection
by the 3x4 matrix (projR, projT) followed by perspective division, with the
depth appended. -/
def points_cam2img (loc : V3 α) (projR : M3 α) (projT : V3 α) : V3 α :=
  let q := projR.mulVec loc + projT
  ⟨q.x / q.z, q.y / q.z, q.z⟩

/-- The per-label mono3d record list built by spa_mvx_converter.py
get_2d_boxes with mono3d=True (lines 585-597), restricted to the center2d
field: a record whose projected depth center2d[2] is <= 0 is skipped by
continue before the append, all other records are appended. -/
def mvx_mono3d_records (projR : M3 α) (projT : V3 α) (locs : List (V3 α)) :
    List (V3 α) :=
  locs.filterMap (fun loc =>
    let c2 := points_cam2img loc projR projT
    if c2.z ≤ 0 then none else some c2)

end Projection

/-- Claim C2 evaluation at the failing input: with identity intrinsic and
extrinsic, zero translation and a single annotation whose center (0, 0, -5)
projects to camera-frame depth -5 <= 0, the nus converter get_2d_boxes with
mono3d=True still appends the record (its depth test has an empty pass body),
while the sibling mvx converter removes it as the claim demands. -/
theorem claim_C2_failing_eval :
    nus_mono3d_records (idM3 : M3 ℝ) idM3 ⟨0, 0, 0⟩ [⟨0, 0, -5⟩] = [⟨0, 0, -5⟩] ∧
    ((-5 : ℝ) ≤ 0) ∧
    mvx_mono3d_records (idM3 : M3 ℝ) ⟨0, 0, 0⟩ [⟨0, 0, -5⟩] = [] := by
  refine ⟨?_, by norm_num, ?_⟩
  · simp only [nus_mono3d_records, nus_center2d, idM3, M3.mulVec, List.map_cons,
      List.map_nil]
    norm_num
  · simp only [mvx_mono3d_records, points_cam2img, idM3, M3.mulVec,
      List.filterMap_cons, List.filterMap_nil]
    norm_num

section LabelParsing

variable {α : Type} [LinearOrderedField α]

/-- Building one numpy column from a per-row extractor: succeeds only when the
extractor succeeds on every row (a row with too few fields raises in the
source, modelled by none). -/
def npColumn {A B : Type} (f : List A → Option B) : List (List A) → Option (List B)
  | [] => some []
  | r :: rs =>
      match f r, npColumn f rs with
      | some b, some bs => some (b :: bs)
      | _, _ => none

/-- The bbox fields of one label row (fields x[5:9]); rows containing the
sentinel -99999.0 among those four fields are replaced by the fixed box
[1102.00, 110.00, 1596.00, 1203.00] (spa_nus_converter.py line 148). -/
def bboxOf (x : List α) : Option (α × α × α × α) :=
  match x.get? 5, x.get? 6, x.get? 7, x.get? 8 with
  | some a, some b, some c, some d =>
      if a = -99999 ∨ b = -99999 ∨ c = -99999 ∨ d = -99999 then
        some (1102, 110, 1596, 1203)
      else some (a, b, c, d)
  | _, _, _, _ => none

/-- The dimensions fields of one label row: x[9:12] holds (h, w, l) and the
source reorders with [:, [2, 1, 0]] into (l, w, h)
(spa_nus_converter.py lines 152-154). -/
def dimensionsOf (x : List α) : Option (α × α × α) :=
  match x.get? 9, x.get? 10, x.get? 11 with
  | some h_, some w_, some l_ => some (l_, w_, h_)
  | _, _, _ => none

/-- The three location fields x[12:15] of one label row. -/
def locationOf (x : List α) : Option (α × α × α) :=
  match x.get? 12, x.get? 13, x.get? 14 with
  | some a, some b, some c => some (a, b, c)
  | _, _, _ => none

/-- The numeric outputs of get_label_anno used by the claims.  The name and
track_id string columns (row fields 0 and 1) are carried in each row as
opaque numeric stand-ins so that all field indices match the source; the
name-mapping table is not modelled here. -/
structure LabelAnno (β : Type) where
  truncated : List β
  occluded : List β
  alpha : List β
  bbox : List (β × β × β × β)
  dimensions : List (β × β × β)
  location : List (β × β × β)
  rotation_y : List β
  score : List β

/-- get_label_anno (spa_nus_converter.py lines 114-166) on the
whitespace-split rows of a label file: per-row column extraction of
truncated x[2], occluded x[3], alpha x[4], bbox x[5:9], dimensions x[9:12]
reordered to (l, w, h), location x[12:15] and rotation_y x[15]; score is
taken from x[16] of every row when the file is nonempty and its FIRST row
has exactly 17 fields (len(content[0]) == 17), and is a zero vector of
length len(content) otherwise. -/
def get_label_anno (content : List (List α)) : Option (LabelAnno α) := do
  let truncated ← npColumn (fun x => x.get? 2) content
  let occluded ← npColumn (fun x => x.get? 3) content
  let alpha ← npColumn (fun x => x.get? 4) content
  let bbox ← npColumn bboxOf content
  let dims ← npColumn dimensionsOf content
  let loc ← npColumn locationOf content
  let roty ← npColumn (fun x => x.get? 15) content
  let score ←
    match content with
    | [] => some (List.replicate content.length (0 : α))
    | r :: _ =>
        if r.length = 17 then npColumn (fun x => x.get? 16) content
        else some (List.replicate content.length (0 : α))
  some ⟨truncated, occluded, alpha, bbox, dims, loc, roty, score⟩

theorem npColumn_eq_some {A B : Type} (f : List A → Option B) (g : List A → B)
    (content : List (List A)) (h : ∀ r ∈ content, f r = some (g r)) :
    npColumn f content = some (content.map g) := by
  induction content with
  | nil => rfl
  | cons r rs ih =>
      unfold npColumn
      rw [h r (List.mem_cons_self _ _), ih (fun r hr => h r (List.mem_cons_of_mem _ hr))]
      rfl

theorem get?_eq_some_getD {A : Type} (r : List A) (i : ℕ) (d : A) (h : i < r.length) :
    r.get? i = some (r.getD i d) := by
  induction r generalizing i with
  | nil => simp at h
  | cons a r ih =>
      cases i with
      | zero => rfl
      | succ j => exact ih j (by simpa using h)

end LabelParsing

/-- Claim C9 amended: on a label file whose rows all have at least 16 fields
(17 when the first row has 17), get_label_anno succeeds, stores the
dimension fields reordered from (h, w, l) into (l, w, h), and sets score to
the 17th field of each row when the FIRST row has 17 fields and to zeros
when the first row does not (or the file is empty); the condition is on the
first row only, not on every row. -/
theorem claim_C9_amended (content : List (List ℝ))
    (h16 : ∀ r ∈ content, 16 ≤ r.length)
    (h17 : ∀ r0 rest, content = r0 :: rest → r0.length = 17 →
      ∀ r ∈ content, 17 ≤ r.length) :
    ∃ a : LabelAnno ℝ, get_label_anno content = some a ∧
      a.dimensions = content.map (fun r => (r.getD 11 0, r.getD 10 0, r.getD 9 0)) ∧
      (∀ r0 rest, content = r0 :: rest → r0.length = 17 →
        a.score = content.map (fun r => r.getD 16 0)) ∧
      (∀ r0 rest, content = r0 :: rest → r0.length ≠ 17 →
        a.score = List.replicate content.length 0) ∧
      (content = [] → a.score = []) := by
  have htrunc : npColumn (fun x => x.get? 2) content
      = some (content.map (fun r => r.getD 2 0)) :=
    npColumn_eq_some _ _ _ (fun r hr => get?_eq_some_getD r 2 0 (by have := h16 r hr; omega))
  have hocc : npColumn (fun x => x.get? 3) content
      = some (content.map (fun r => r.getD 3 0)) :=
    npColumn_eq_some _ _ _ (fun r hr => get?_eq_some_getD r 3 0 (by have := h16 r hr; omega))
  have halpha : npColumn (fun x => x.get? 4) content
      = some (content.map (fun r => r.getD 4 0)) :=
    npColumn_eq_some _ _ _ (fun r hr => get?_eq_some_getD r 4 0 (by have := h16 r hr; omega))
  have hbbox : npColumn bboxOf content
      = some (content.map (fun r =>
          if r.getD 5 0 = -99999 ∨ r.getD 6 0 = -99999 ∨
             r.getD 7 0 = -99999 ∨ r.getD 8 0 = -99999 then
            ((1102 : ℝ), (110 : ℝ), (1596 : ℝ), (1203 : ℝ))
          else (r.getD 5 0, r.getD 6 0, r.getD 7 0, r.getD 8 0))) := by
    apply npColumn_eq_some
    intro r hr
    unfold bboxOf
    rw [get?_eq_some_getD r 5 0 (by have := h16 r hr; omega),
      get?_eq_some_getD r 6 0 (by have := h16 r hr; omega),
      get?_eq_some_getD r 7 0 (by have := h16 r hr; omega),
      get?_eq_some_getD r 8 0 (by have := h16 r hr; omega)]
    show (if r.getD 5 0 = -99999 ∨ r.getD 6 0 = -99999 ∨
             r.getD 7 0 = -99999 ∨ r.getD 8 0 = -99999 then
          some ((1102 : ℝ), (110 : ℝ), (1596 : ℝ), (1203 : ℝ))
        else some (r.getD 5 0, r.getD 6 0, r.getD 7 0, r.getD 8 0)) = _
    rw [apply_ite some]
  have hdims : npColumn dimensionsOf content
      = some (content.map (fun r => (r.getD 11 0, r.getD 10 0, r.getD 9 0))) := by
    apply npColumn_eq_some
    intro r hr
    unfold dimensionsOf
    rw [get?_eq_some_getD r 9 0 (by have := h16 r hr; omega),
      get?_eq_some_getD r 10 0 (by have := h16 r hr; omega),
      get?_eq_some_getD r 11 0 (by have := h16 r hr; omega)]
  have hloc : npColumn locationOf content
      = some (content.map (fun r => (r.getD 12 0, r.getD 13 0, r.getD 14 0))) := by
    apply npColumn_eq_some
    intro r hr
    unfold locationOf
    rw [get?_eq_some_getD r 12 0 (by have := h16 r hr; omega),
      get?_eq_some_getD r 13 0 (by have := h16 r hr; omega),
      get?_eq_some_getD r 14 0 (by have := h16 r hr; omega)]
  have hroty : npColumn (fun x => x.get? 15) content
      = some (content.map (fun r => r.getD 15 0)) :=
    npColumn_eq_some _ _ _ (fun r hr => get?_eq_some_getD r 15 0 (by have := h16 r hr; omega))
  cases content with
  | nil =>
      refine ⟨⟨[], [], [], [], [], [], [], []⟩, ?_, by simp, ?_, ?_, fun _ => rfl⟩
      · rfl
      · intro r0 rest heq
        cases heq
      · intro r0 rest heq
        cases heq
  | cons r0 rest =>
      by_cases hfirst : r0.length = 17
      · have hscore : npColumn (fun x => x.get? 16) (r0 :: rest)
            = some ((r0 :: rest).map (fun r => r.getD 16 0)) := by
          apply npColumn_eq_some
          intro r hr
          exact get?_eq_some_getD r 16 0
            (by have := h17 r0 rest rfl hfirst r hr; omega)
        refine ⟨⟨(r0 :: rest).map (fun r => r.getD 2 0),
                 (r0 :: rest).map (fun r => r.getD 3 0),
                 (r0 :: rest).map (fun r => r.getD 4 0),
                 (r0 :: rest).map (fun r =>
                   if r.getD 5 0 = -99999 ∨ r.getD 6 0 = -99999 ∨
                      r.getD 7 0 = -99999 ∨ r.getD 8 0 = -99999 then
                     ((1102 : ℝ), (110 : ℝ), (1596 : ℝ), (1203 : ℝ))
                   else (r.getD 5 0, r.getD 6 0, r.getD 7 0, r.getD 8 0)),
                 (r0 :: rest).map (fun r => (r.getD 11 0, r.getD 10 0, r.getD 9 0)),
                 (r0 :: rest).map (fun r => (r.getD 12 0, r.getD 13 0, r.getD 14 0)),
                 (r0 :: rest).map (fun r => r.getD 15 0),
                 (r0 :: rest).map (fun r => r.getD 16 0)⟩, ?_, rfl, ?_, ?_, ?_⟩
        · unfold get_label_anno
          rw [htrunc, hocc, halpha, hbbox, hdims, hloc, hroty]
          simp only [Option.bind_eq_bind, Option.some_bind, if_pos hfirst, hscore]
        · intro r0h resth heq hlen
          rfl
        · intro r0h resth heq hlen
          cases heq
          exact absurd hfirst hlen
        · intro heq
          cases heq
      · refine ⟨⟨(r0 :: rest).map (fun r => r.getD 2 0),
                 (r0 :: rest).map (fun r => r.getD 3 0),
                 (r0 :: rest).map (fun r => r.getD 4 0),
                 (r0 :: rest).map (fun r =>
                   if r.getD 5 0 = -99999 ∨ r.getD 6 0 = -99999 ∨
                      r.getD 7 0 = -99999 ∨ r.getD 8 0 = -99999 then
                     ((1102 : ℝ), (110 : ℝ), (1596 : ℝ), (1203 : ℝ))
                   else (r.getD 5 0, r.getD 6 0, r.getD 7 0, r.getD 8 0)),
                 (r0 :: rest).map (fun r => (r.getD 11 0, r.getD 10 0, r.getD 9 0)),
                 (r0 :: rest).map (fun r => (r.getD 12 0, r.getD 13 0, r.getD 14 0)),
                 (r0 :: rest).map (fun r => r.getD 15 0),
                 List.replicate (r0 :: rest).length (0 : ℝ)⟩, ?_, rfl, ?_, ?_, ?_⟩
        · unfold get_label_anno
          rw [htrunc, hocc, halpha, hbbox, hdims, hloc, hroty]
          simp only [Option.bind_eq_bind, Option.some_bind, if_neg hfirst]
        · intro r0h resth heq hlen
          cases heq
          exact absurd hlen hfirst
        · intro r0h resth heq hlen
          rfl
        · intro heq
          cases heq

/-- Claim C9 counterexample: a label file whose first row has 17 fields but
whose second row has only 16 (a file in which the optional score is present
on some rows only, so not every row has 17 fields) does not get score set to
zeros: get_label_anno is a parse error (none), because the first-row check
len(content[0]) == 17 selects the score branch and x[16] then fails on the
second row. -/
theorem claim_C9_counterexample :
    ¬ ∃ a : LabelAnno ℝ,
      get_label_anno
          [[0, 0, 0, 0, 0, 5, 6, 7, 8, 1, 2, 3, 4, 5, 6, 0, 9],
           [0, 0, 0, 0, 0, 5, 6, 7, 8, 1, 2, 3, 4, 5, 6, 0]] = some a ∧
        a.score = List.replicate 2 0 := by
  rintro ⟨a, ha, _⟩
  have hnone : get_label_anno
      [[(0 : ℝ), 0, 0, 0, 0, 5, 6, 7, 8, 1, 2, 3, 4, 5, 6, 0, 9],
       [0, 0, 0, 0, 0, 5, 6, 7, 8, 1, 2, 3, 4, 5, 6, 0]] = none := by
    norm_num [get_label_anno, npColumn, bboxOf, dimensionsOf, locationOf, List.get?]
  rw [hnone] at ha
  cases ha

section PostProcess

/-- The set of projected corner points given to post_process_coords. -/
def ptsSet (pts : List (ℝ × ℝ)) : Set (ℝ × ℝ) := {p | p ∈ pts}

/-- The convex hull of the projected corners
(shapely MultiPoint(corner_coords).convex_hull). -/
def hullSet (pts : List (ℝ × ℝ)) : Set (ℝ × ℝ) := convexHull ℝ (ptsSet pts)

/-- The image canvas rectangle (shapely box(0, 0, imsize[0], imsize[1])). -/
def canvasSet (W H : ℝ) : Set (ℝ × ℝ) :=
  {q | 0 ≤ q.1 ∧ q.1 ≤ W ∧ 0 ≤ q.2 ∧ q.2 ≤ H}

/-- Relational model of post_process_coords (spa_nus_converter.py lines
956-986).  The shapely geometry calls are modelled by their mathematical
semantics: intersects is nonemptiness of the set intersection, and the
min/max over the exterior coordinates of the intersection polygon are the
tight bounds (least/greatest coordinate values) of the intersection region.
The function returns None exactly in the non-intersecting branch. -/
def post_process_coords (pts : List (ℝ × ℝ)) (W H : ℝ)
    (res : Option (ℝ × ℝ × ℝ × ℝ)) : Prop :=
  match res with
  | none => ¬ (hullSet pts ∩ canvasSet W H).Nonempty
  | some (mnx, mny, mxx, mxy) =>
      (hullSet pts ∩ canvasSet W H).Nonempty ∧
      IsLeast (Prod.fst '' (hullSet pts ∩ canvasSet W H)) mnx ∧
      IsLeast (Prod.snd '' (hullSet pts ∩ canvasSet W H)) mny ∧
      IsGreatest (Prod.fst '' (hullSet pts ∩ canvasSet W H)) mxx ∧
      IsGreatest (Prod.snd '' (hullSet pts ∩ canvasSet W H)) mxy

theorem isLinearMap_fst : IsLinearMap ℝ (Prod.fst : ℝ × ℝ → ℝ) :=
  ⟨fun _ _ => rfl, fun _ _ => rfl⟩

theorem isLinearMap_snd : IsLinearMap ℝ (Prod.snd : ℝ × ℝ → ℝ) :=
  ⟨fun _ _ => rfl, fun _ _ => rfl⟩

theorem isGreatest_image_hull {pts : List (ℝ × ℝ)} (hne : pts ≠ [])
    (f : ℝ × ℝ → ℝ) (hf : IsLinearMap ℝ f) :
    IsGreatest (f '' hullSet pts) (npMax (pts.map f)) := by
  constructor
  · have hmem : npMax (pts.map f) ∈ pts.map f := npMax_mem (by simpa using hne)
    rcases List.mem_map.mp hmem with ⟨p, hp, hfp⟩
    exact ⟨p, subset_convexHull ℝ (ptsSet pts) hp, hfp⟩
  · rintro y ⟨q, hq, rfl⟩
    have hhalf : hullSet pts ⊆ {w | f w ≤ npMax (pts.map f)} := by
      apply convexHull_min
      · intro p hp
        exact le_npMax_of_mem (List.mem_map_of_mem f hp)
      · exact convex_halfSpace_le hf _
    exact hhalf hq

theorem isLeast_image_hull {pts : List (ℝ × ℝ)} (hne : pts ≠ [])
    (f : ℝ × ℝ → ℝ) (hf : IsLinearMap ℝ f) :
    IsLeast (f '' hullSet pts) (npMin (pts.map f)) := by
  constructor
  · have hmem : npMin (pts.map f) ∈ pts.map f := npMin_mem (by simpa using hne)
    rcases List.mem_map.mp hmem with ⟨p, hp, hfp⟩
    exact ⟨p, subset_convexHull ℝ (ptsSet pts) hp, hfp⟩
  · rintro y ⟨q, hq, rfl⟩
    have hhalf : hullSet pts ⊆ {w | npMin (pts.map f) ≤ f w} := by
      apply convexHull_min
      · intro p hp
        exact npMin_le_of_mem (List.mem_map_of_mem f hp)
      · exact convex_halfSpace_ge hf _
    exact hhalf hq

end PostProcess

/-- Claim C10: whenever post_process_coords returns a tuple
(min_x, min_y, max_x, max_y), it satisfies 0 <= min_x <= max_x <= W and
0 <= min_y <= max_y <= H: the rectangle is well-ordered and lies inside the
canvas. -/
theorem claim_C10_result_in_canvas (pts : List (ℝ × ℝ)) (W H mnx mny mxx mxy : ℝ)
    (hres : post_process_coords pts W H (some (mnx, mny, mxx, mxy))) :
    0 ≤ mnx ∧ mnx ≤ mxx ∧ mxx ≤ W ∧ 0 ≤ mny ∧ mny ≤ mxy ∧ mxy ≤ H := by
  obtain ⟨-, h1, h2, h3, h4⟩ := hres
  obtain ⟨q1, ⟨-, hq1c⟩, he1⟩ := h1.1
  obtain ⟨q2, ⟨-, hq2c⟩, he2⟩ := h2.1
  obtain ⟨q3, ⟨-, hq3c⟩, he3⟩ := h3.1
  obtain ⟨q4, ⟨-, hq4c⟩, he4⟩ := h4.1
  refine ⟨?_, h3.2 h1.1, ?_, ?_, h4.2 h2.1, ?_⟩
  · rw [← he1]
    exact hq1c.1
  · rw [← he3]
    exact hq3c.2.1
  · rw [← he2]
    exact hq2c.2.2.1
  · rw [← he4]
    exact hq4c.2.2.2

theorem claim_C3_amended_witness :
    get_pts_in_3dbox_ [(⟨0, 0, 0⟩ : V3 ℝ)] [box_center_to_corner_3d_ ⟨5, 6, 7, 2, 3, 0, 1⟩] =
      [List.countP (fun p => decide (
        (npMin ((box_center_to_corner_3d_ ⟨5, 6, 7, 2, 3, 0, 1⟩).map (fun v => v.x)) ≤ p.x ∧
          p.x ≤ npMax ((box_center_to_corner_3d_ ⟨5, 6, 7, 2, 3, 0, 1⟩).map (fun v => v.x))) ∧
        (npMin ((box_center_to_corner_3d_ ⟨5, 6, 7, 2, 3, 0, 1⟩).map (fun v => v.y)) ≤ p.y ∧
          p.y ≤ npMax ((box_center_to_corner_3d_ ⟨5, 6, 7, 2, 3, 0, 1⟩).map (fun v => v.y))) ∧
        p.z = 7)) [(⟨0, 0, 0⟩ : V3 ℝ)]] :=
  claim_C3_amended ⟨5, 6, 7, 2, 3, 0, 1⟩ rfl [⟨0, 0, 0⟩]

theorem claim_C6_witness :
    (box_center_to_corner_3d_ ⟨0, 0, 0, 2, 2, 2, 0⟩).length = 8 ∧
    (npMax ((box_center_to_corner_3d_ ⟨0, 0, 0, 2, 2, 2, 0⟩).map (fun v => v.x)) -
        npMin ((box_center_to_corner_3d_ ⟨0, 0, 0, 2, 2, 2, 0⟩).map (fun v => v.x))) *
      (npMax ((box_center_to_corner_3d_ ⟨0, 0, 0, 2, 2, 2, 0⟩).map (fun v => v.y)) -
        npMin ((box_center_to_corner_3d_ ⟨0, 0, 0, 2, 2, 2, 0⟩).map (fun v => v.y))) *
      (npMax ((box_center_to_corner_3d_ ⟨0, 0, 0, 2, 2, 2, 0⟩).map (fun v => v.z)) -
        npMin ((box_center_to_corner_3d_ ⟨0, 0, 0, 2, 2, 2, 0⟩).map (fun v => v.z)))
      = 2 * 2 * 2 :=
  (claim_C6_eight_corners_volume ⟨0, 0, 0, 2, 2, 2, 0⟩ 0 (by norm_num) (by norm_num)
    (by norm_num) (by norm_num)).1

theorem claim_C7_witness :
    (get_pts_in_3dbox_ [(⟨0, 0, 0⟩ : V3 ℝ)] [[(⟨0, 0, 0⟩ : V3 ℝ)]]
        = [[(⟨0, 0, 0⟩ : V3 ℝ)]].map (fun cs =>
            List.countP (fun p => decide (inBox3Spec p cs)) [(⟨0, 0, 0⟩ : V3 ℝ)])) ∧
      ∀ n ∈ get_pts_in_3dbox_ [(⟨0, 0, 0⟩ : V3 ℝ)] [[(⟨0, 0, 0⟩ : V3 ℝ)]],
        n ≤ [(⟨0, 0, 0⟩ : V3 ℝ)].length :=
  claim_C7_count_spec [⟨0, 0, 0⟩] [[⟨0, 0, 0⟩]]
    (by intro cs hcs; rw [List.mem_singleton] at hcs; subst hcs; simp)

theorem claim_C8_witness :
    get_pts_in_3dbox_ [(⟨0, 0, 0⟩ : V3 ℝ)]
        [box_center_to_corner_3d_ ⟨0, 0, 0, 2, 2, 2, 0⟩] = [1] ∧
    ∀ cs ∈ box_center_to_corner_3d [⟨0, 0, 0⟩] [⟨2, 2, 2⟩] [0],
      get_pts_in_3dbox_ [(⟨0, 0, 0⟩ : V3 ℝ)] [cs] = [1] :=
  claim_C8_center_inside ⟨0, 0, 0, 2, 2, 2, 0⟩ (by norm_num) (by norm_num) (by norm_num)

theorem claim_C9_amended_witness :
    ∃ a : LabelAnno ℝ,
      get_label_anno [[0, 0, 0, 0, 0, 5, 6, 7, 8, 1, 2, 3, 4, 5, 6, 0, 9]] = some a ∧
      a.dimensions = [[(0 : ℝ), 0, 0, 0, 0, 5, 6, 7, 8, 1, 2, 3, 4, 5, 6, 0, 9]].map
        (fun r => (r.getD 11 0, r.getD 10 0, r.getD 9 0)) ∧
      (∀ r0 rest, [[(0 : ℝ), 0, 0, 0, 0, 5, 6, 7, 8, 1, 2, 3, 4, 5, 6, 0, 9]] = r0 :: rest →
        r0.length = 17 →
        a.score = [[(0 : ℝ), 0, 0, 0, 0, 5, 6, 7, 8, 1, 2, 3, 4, 5, 6, 0, 9]].map
          (fun r => r.getD 16 0)) ∧
      (∀ r0 rest, [[(0 : ℝ), 0, 0, 0, 0, 5, 6, 7, 8, 1, 2, 3, 4, 5, 6, 0, 9]] = r0 :: rest →
        r0.length ≠ 17 →
        a.score = List.replicate
          [[(0 : ℝ), 0, 0, 0, 0, 5, 6, 7, 8, 1, 2, 3, 4, 5, 6, 0, 9]].length 0) ∧
      ([[(0 : ℝ), 0, 0, 0, 0, 5, 6, 7, 8, 1, 2, 3, 4, 5, 6, 0, 9]] = [] → a.score = []) :=
  claim_C9_amended [[0, 0, 0, 0, 0, 5, 6, 7, 8, 1, 2, 3, 4, 5, 6, 0, 9]]
    (by intro r hr; rw [List.mem_singleton] at hr; subst hr; norm_num)
    (by
      intro r0 rest heq hlen r hr
      rw [List.mem_singleton] at hr
      subst hr
      norm_num)

theorem ppc_singleton_example :
    post_process_coords [((1 : ℝ), (1 : ℝ))] 2 2 (some (1, 1, 1, 1)) := by
  have hpts : ptsSet [((1 : ℝ), (1 : ℝ))] = {((1 : ℝ), (1 : ℝ))} := by
    ext p
    simp [ptsSet]
  have hhull : hullSet [((1 : ℝ), (1 : ℝ))] = {((1 : ℝ), (1 : ℝ))} := by
    rw [hullSet, hpts, convexHull_singleton]
  have hmem : ((1 : ℝ), (1 : ℝ)) ∈ canvasSet 2 2 := by
    refine ⟨by norm_num, by norm_num, by norm_num, by norm_num⟩
  have hinter : hullSet [((1 : ℝ), (1 : ℝ))] ∩ canvasSet 2 2 = {((1 : ℝ), (1 : ℝ))} := by
    rw [hhull]
    exact Set.inter_eq_left.mpr (Set.singleton_subset_iff.mpr hmem)
  unfold post_process_coords
  rw [hinter]
  refine ⟨⟨((1 : ℝ), (1 : ℝ)), rfl⟩, ?_, ?_, ?_, ?_⟩ <;>
    rw [Set.image_singleton] <;> first
      | exact isLeast_singleton
      | exact isGreatest_singleton

theorem claim_C10_witness :
    (0 : ℝ) ≤ 1 ∧ (1 : ℝ) ≤ 1 ∧ (1 : ℝ) ≤ 2 ∧ (0 : ℝ) ≤ 1 ∧ (1 : ℝ) ≤ 1 ∧ (1 : ℝ) ≤ 2 :=
  claim_C10_result_in_canvas [((1 : ℝ), (1 : ℝ))] 2 2 1 1 1 1 ppc_singleton_example

section PostProcessOutcome

/-- The possible outcomes of one post_process_coords call: the call can raise
(AttributeError at img_intersection.exterior), return None, or return a
4-tuple. -/
inductive PPCOutcome
  | raises
  | retNone
  | retBox (r : ℝ × ℝ × ℝ × ℝ)

/-- A subset of the plane contained in an affine line.  Shapely represents a
convex region by a Point or LineString exactly when it is contained in a
line, and by a Polygon otherwise; only Polygon has an exterior attribute. -/
def collinearSet (S : Set (ℝ × ℝ)) : Prop :=
  ∃ a b c : ℝ, (a ≠ 0 ∨ b ≠ 0) ∧ ∀ p ∈ S, a * p.1 + b * p.2 = c

/-- Refined relational model of post_process_coords (spa_nus_converter.py
lines 956-986) including the error path.  If the hull does not intersect the
canvas the function returns None (the else branch).  Otherwise line 975
computes the intersection region and line 977 reads
img_intersection.exterior: when the intersection is a Point or LineString
(a set contained in a line) this raises AttributeError, since only Polygon
has an exterior; when the intersection is a genuine polygon the returned
tuple holds the min/max over its exterior coordinates, which are the tight
bounds (least/greatest coordinate values) of the intersection region. -/
def post_process_coords_outcome (pts : List (ℝ × ℝ)) (W H : ℝ) : PPCOutcome → Prop
  | .retNone => ¬ (hullSet pts ∩ canvasSet W H).Nonempty
  | .raises =>
      (hullSet pts ∩ canvasSet W H).Nonempty ∧
      collinearSet (hullSet pts ∩ canvasSet W H)
  | .retBox (mnx, mny, mxx, mxy) =>
      (hullSet pts ∩ canvasSet W H).Nonempty ∧
      ¬ collinearSet (hullSet pts ∩ canvasSet W H) ∧
      IsLeast (Prod.fst '' (hullSet pts ∩ canvasSet W H)) mnx ∧
      IsLeast (Prod.snd '' (hullSet pts ∩ canvasSet W H)) mny ∧
      IsGreatest (Prod.fst '' (hullSet pts ∩ canvasSet W H)) mxx ∧
      IsGreatest (Prod.snd '' (hullSet pts ∩ canvasSet W H)) mxy

theorem convex_canvasSet (W H : ℝ) : Convex ℝ (canvasSet W H) := by
  intro x hx y hy a b ha hb hab
  obtain ⟨hx1, hx2, hx3, hx4⟩ := hx
  obtain ⟨hy1, hy2, hy3, hy4⟩ := hy
  have hfst : (a • x + b • y).1 = a * x.1 + b * y.1 := by simp [smul_eq_mul]
  have hsnd : (a • x + b • y).2 = a * x.2 + b * y.2 := by simp [smul_eq_mul]
  have hW : a * W + b * W = W := by rw [← add_mul, hab, one_mul]
  have hH : a * H + b * H = H := by rw [← add_mul, hab, one_mul]
  refine ⟨?_, ?_, ?_, ?_⟩
  · rw [hfst]
    have := mul_nonneg ha hx1
    have := mul_nonneg hb hy1
    linarith
  · rw [hfst]
    have := mul_le_mul_of_nonneg_left hx2 ha
    have := mul_le_mul_of_nonneg_left hy2 hb
    linarith
  · rw [hsnd]
    have := mul_nonneg ha hx3
    have := mul_nonneg hb hy3
    linarith
  · rw [hsnd]
    have := mul_le_mul_of_nonneg_left hx4 ha
    have := mul_le_mul_of_nonneg_left hy4 hb
    linarith

end PostProcessOutcome

/-- Claim C5 counterexample: with the single projected corner point (1, 1)
and canvas (2, 2) the convex hull is the point (1, 1), which lies fully
inside the canvas and intersects it, yet post_process_coords does not return
the bounding rectangle of the corner points (and does not return None):
line 977 img_intersection.exterior raises AttributeError because the
intersection is a shapely Point, which has no exterior. -/
theorem claim_C5_counterexample :
    post_process_coords_outcome [((1 : ℝ), (1 : ℝ))] 2 2 PPCOutcome.raises ∧
    hullSet [((1 : ℝ), (1 : ℝ))] ⊆ canvasSet 2 2 ∧
    (∀ r, ¬ post_process_coords_outcome [((1 : ℝ), (1 : ℝ))] 2 2 (PPCOutcome.retBox r)) ∧
    ¬ post_process_coords_outcome [((1 : ℝ), (1 : ℝ))] 2 2 PPCOutcome.retNone := by
  have hhull : hullSet [((1 : ℝ), (1 : ℝ))] = {((1 : ℝ), (1 : ℝ))} := by
    have hpts : ptsSet [((1 : ℝ), (1 : ℝ))] = {((1 : ℝ), (1 : ℝ))} := by
      ext p
      simp [ptsSet]
    rw [hullSet, hpts, convexHull_singleton]
  have hmemc : ((1 : ℝ), (1 : ℝ)) ∈ canvasSet 2 2 :=
    ⟨by norm_num, by norm_num, by norm_num, by norm_num⟩
  have hnemp : (hullSet [((1 : ℝ), (1 : ℝ))] ∩ canvasSet 2 2).Nonempty :=
    ⟨((1 : ℝ), (1 : ℝ)), ⟨by rw [hhull]; exact Set.mem_singleton _, hmemc⟩⟩
  have hcol : collinearSet (hullSet [((1 : ℝ), (1 : ℝ))] ∩ canvasSet 2 2) := by
    refine ⟨1, 0, 1, Or.inl one_ne_zero, ?_⟩
    rintro p ⟨hp, -⟩
    rw [hhull] at hp
    rw [Set.mem_singleton_iff.mp hp]
    norm_num
  refine ⟨?_, ?_, ?_, ?_⟩
  · show (hullSet [((1 : ℝ), (1 : ℝ))] ∩ canvasSet 2 2).Nonempty ∧
      collinearSet (hullSet [((1 : ℝ), (1 : ℝ))] ∩ canvasSet 2 2)
    exact ⟨hnemp, hcol⟩
  · rw [hhull]
    exact Set.singleton_subset_iff.mpr hmemc
  · rintro ⟨mnx, mny, mxx, mxy⟩ h
    unfold post_process_coords_outcome at h
    exact h.2.1 hcol
  · intro h
    unfold post_process_coords_outcome at h
    exact h hnemp

/-- Claim C5 amended: post_process_coords returns None exactly when the
convex hull of the corner points does not intersect the canvas; when the
hull lies fully inside the canvas, the returned tuple equals the plain
axis-aligned bounding rectangle of the corner points provided the
intersection is genuinely two-dimensional (not contained in a line), while a
degenerate point-or-segment intersection makes the call raise
AttributeError instead of returning. -/
theorem claim_C5_amended (pts : List (ℝ × ℝ)) (W H : ℝ) (o : PPCOutcome)
    (ho : post_process_coords_outcome pts W H o) :
    (o = PPCOutcome.retNone ↔ hullSet pts ∩ canvasSet W H = ∅) ∧
    (pts ≠ [] → hullSet pts ⊆ canvasSet W H →
      ¬ collinearSet (hullSet pts ∩ canvasSet W H) →
      o = PPCOutcome.retBox (npMin (pts.map Prod.fst), npMin (pts.map Prod.snd),
        npMax (pts.map Prod.fst), npMax (pts.map Prod.snd))) ∧
    (pts ≠ [] → hullSet pts ⊆ canvasSet W H →
      collinearSet (hullSet pts ∩ canvasSet W H) → o = PPCOutcome.raises) := by
  refine ⟨?_, ?_, ?_⟩
  · cases o with
    | retNone =>
        unfold post_process_coords_outcome at ho
        exact ⟨fun _ => Set.not_nonempty_iff_eq_empty.mp ho, fun _ => rfl⟩
    | raises =>
        unfold post_process_coords_outcome at ho
        constructor
        · intro h
          cases h
        · intro h
          rw [h] at ho
          exact absurd ho.1 Set.not_nonempty_empty
    | retBox r =>
        obtain ⟨mnx, mny, mxx, mxy⟩ := r
        unfold post_process_coords_outcome at ho
        constructor
        · intro h
          cases h
        · intro h
          rw [h] at ho
          exact absurd ho.1 Set.not_nonempty_empty
  · intro hne hsub hndeg
    have hinter : hullSet pts ∩ canvasSet W H = hullSet pts :=
      Set.inter_eq_left.mpr hsub
    have hhne : (hullSet pts).Nonempty := by
      rcases List.exists_mem_of_ne_nil pts hne with ⟨p, hp⟩
      exact ⟨p, subset_convexHull ℝ (ptsSet pts) hp⟩
    cases o with
    | retNone =>
        unfold post_process_coords_outcome at ho
        rw [hinter] at ho
        exact absurd hhne ho
    | raises =>
        unfold post_process_coords_outcome at ho
        exact absurd ho.2 hndeg
    | retBox r =>
        obtain ⟨mnx, mny, mxx, mxy⟩ := r
        unfold post_process_coords_outcome at ho
        obtain ⟨-, -, h1, h2, h3, h4⟩ := ho
        rw [hinter] at h1 h2 h3 h4
        have e1 := h1.unique (isLeast_image_hull hne Prod.fst isLinearMap_fst)
        have e2 := h2.unique (isLeast_image_hull hne Prod.snd isLinearMap_snd)
        have e3 := h3.unique (isGreatest_image_hull hne Prod.fst isLinearMap_fst)
        have e4 := h4.unique (isGreatest_image_hull hne Prod.snd isLinearMap_snd)
        rw [e1, e2, e3, e4]
  · intro hne hsub hdeg
    have hinter : hullSet pts ∩ canvasSet W H = hullSet pts :=
      Set.inter_eq_left.mpr hsub
    have hhne : (hullSet pts).Nonempty := by
      rcases List.exists_mem_of_ne_nil pts hne with ⟨p, hp⟩
      exact ⟨p, subset_convexHull ℝ (ptsSet pts) hp⟩
    cases o with
    | retNone =>
        unfold post_process_coords_outcome at ho
        rw [hinter] at ho
        exact absurd hhne ho
    | raises => rfl
    | retBox r =>
        obtain ⟨mnx, mny, mxx, mxy⟩ := r
        unfold post_process_coords_outcome at ho
        exact absurd hdeg ho.2.1

theorem triangle_hull_sub :
    hullSet [((0 : ℝ), (0 : ℝ)), ((1 : ℝ), (0 : ℝ)), ((0 : ℝ), (1 : ℝ))]
      ⊆ canvasSet 2 2 := by
  apply convexHull_min
  · intro p hp
    simp only [ptsSet, Set.mem_setOf_eq, List.mem_cons, List.not_mem_nil,
      or_false] at hp
    rcases hp with rfl | rfl | rfl
    · exact ⟨by norm_num, by norm_num, by norm_num, by norm_num⟩
    · exact ⟨by norm_num, by norm_num, by norm_num, by norm_num⟩
    · exact ⟨by norm_num, by norm_num, by norm_num, by norm_num⟩
  · exact convex_canvasSet 2 2

theorem triangle_mem_hull (p : ℝ × ℝ)
    (hp : p ∈ [((0 : ℝ), (0 : ℝ)), ((1 : ℝ), (0 : ℝ)), ((0 : ℝ), (1 : ℝ))]) :
    p ∈ hullSet [((0 : ℝ), (0 : ℝ)), ((1 : ℝ), (0 : ℝ)), ((0 : ℝ), (1 : ℝ))] :=
  subset_convexHull ℝ _ hp

theorem triangle_not_collinear :
    ¬ collinearSet (hullSet [((0 : ℝ), (0 : ℝ)), ((1 : ℝ), (0 : ℝ)), ((0 : ℝ), (1 : ℝ))]
      ∩ canvasSet 2 2) := by
  rintro ⟨a, b, c, hab, hall⟩
  have h0 := hall ((0 : ℝ), (0 : ℝ))
    ⟨triangle_mem_hull _ (by norm_num),
     ⟨by norm_num, by norm_num, by norm_num, by norm_num⟩⟩
  have h1 := hall ((1 : ℝ), (0 : ℝ))
    ⟨triangle_mem_hull _ (by norm_num),
     ⟨by norm_num, by norm_num, by norm_num, by norm_num⟩⟩
  have h2 := hall ((0 : ℝ), (1 : ℝ))
    ⟨triangle_mem_hull _ (by norm_num),
     ⟨by norm_num, by norm_num, by norm_num, by norm_num⟩⟩
  norm_num at h0 h1 h2
  rcases hab with h | h
  · exact h (by linarith)
  · exact h (by linarith)

theorem ppc_triangle_example :
    post_process_coords_outcome [((0 : ℝ), (0 : ℝ)), ((1 : ℝ), (0 : ℝ)), ((0 : ℝ), (1 : ℝ))]
      2 2 (PPCOutcome.retBox (0, 0, 1, 1)) := by
  have hne3 : [((0 : ℝ), (0 : ℝ)), ((1 : ℝ), (0 : ℝ)), ((0 : ℝ), (1 : ℝ))]
      ≠ ([] : List (ℝ × ℝ)) := by simp
  have hinter : hullSet [((0 : ℝ), (0 : ℝ)), ((1 : ℝ), (0 : ℝ)), ((0 : ℝ), (1 : ℝ))]
      ∩ canvasSet 2 2
      = hullSet [((0 : ℝ), (0 : ℝ)), ((1 : ℝ), (0 : ℝ)), ((0 : ℝ), (1 : ℝ))] :=
    Set.inter_eq_left.mpr triangle_hull_sub
  have ef1 : npMin ([((0 : ℝ), (0 : ℝ)), ((1 : ℝ), (0 : ℝ)), ((0 : ℝ), (1 : ℝ))].map
      Prod.fst) = 0 := by
    norm_num [npMin, List.foldl_cons, List.foldl_nil, min_def]
  have ef2 : npMin ([((0 : ℝ), (0 : ℝ)), ((1 : ℝ), (0 : ℝ)), ((0 : ℝ), (1 : ℝ))].map
      Prod.snd) = 0 := by
    norm_num [npMin, List.foldl_cons, List.foldl_nil, min_def]
  have ef3 : npMax ([((0 : ℝ), (0 : ℝ)), ((1 : ℝ), (0 : ℝ)), ((0 : ℝ), (1 : ℝ))].map
      Prod.fst) = 1 := by
    norm_num [npMax, List.foldl_cons, List.foldl_nil, max_def]
  have ef4 : npMax ([((0 : ℝ), (0 : ℝ)), ((1 : ℝ), (0 : ℝ)), ((0 : ℝ), (1 : ℝ))].map
      Prod.snd) = 1 := by
    norm_num [npMax, List.foldl_cons, List.foldl_nil, max_def]
  unfold post_process_coords_outcome
  refine ⟨⟨((0 : ℝ), (0 : ℝ)),
      ⟨triangle_mem_hull _ (by norm_num),
       ⟨by norm_num, by norm_num, by norm_num, by norm_num⟩⟩⟩,
    triangle_not_collinear, ?_, ?_, ?_, ?_⟩
  · rw [hinter]
    have h := isLeast_image_hull hne3 Prod.fst isLinearMap_fst
    rwa [ef1] at h
  · rw [hinter]
    have h := isLeast_image_hull hne3 Prod.snd isLinearMap_snd
    rwa [ef2] at h
  · rw [hinter]
    have h := isGreatest_image_hull hne3 Prod.fst isLinearMap_fst
    rwa [ef3] at h
  · rw [hinter]
    have h := isGreatest_image_hull hne3 Prod.snd isLinearMap_snd
    rwa [ef4] at h

theorem claim_C5_amended_witness :
    PPCOutcome.retBox ((0 : ℝ), (0 : ℝ), (1 : ℝ), (1 : ℝ))
      = PPCOutcome.retBox
          (npMin ([((0 : ℝ), (0 : ℝ)), ((1 : ℝ), (0 : ℝ)), ((0 : ℝ), (1 : ℝ))].map
            Prod.fst),
           npMin ([((0 : ℝ), (0 : ℝ)), ((1 : ℝ), (0 : ℝ)), ((0 : ℝ), (1 : ℝ))].map
            Prod.snd),
           npMax ([((0 : ℝ), (0 : ℝ)), ((1 : ℝ), (0 : ℝ)), ((0 : ℝ), (1 : ℝ))].map
            Prod.fst),
           npMax ([((0 : ℝ), (0 : ℝ)), ((1 : ℝ), (0 : ℝ)), ((0 : ℝ), (1 : ℝ))].map
            Prod.snd)) :=
  (claim_C5_amended [((0 : ℝ), (0 : ℝ)), ((1 : ℝ), (0 : ℝ)), ((0 : ℝ), (1 : ℝ))] 2 2
      (PPCOutcome.retBox (0, 0, 1, 1)) ppc_triangle_example).2.1
    (by simp) triangle_hull_sub triangle_not_collinear
